/-
Verification of the vision-to-navigation decision pipeline:
the zone decision engine, publish gate, single-slot frame queue
(apps/api/api/workers/vision_supervisor.py) and the navigation
decision store (apps/api/api/services/navigation.py).

Machine floats are embedded as ℚ; timestamps are explicit ℚ parameters
(`datetime.now` / `time.time` passed in); dicts are functions
`String → Option _`; stateful methods are state-passing functions
returning the new store.
-/
import Mathlib

/-- Navigation command enum (`api/models/schemas.py`, `NavigationCommand`). -/
inductive NavigationCommand where
  | MOVE_FORWARD
  | TURN_LEFT
  | TURN_RIGHT
  | STOP
deriving DecidableEq, Repr

/-- String value of a command (`NavigationCommand(str, Enum)` member values). -/
def NavigationCommand.value : NavigationCommand → String
  | .MOVE_FORWARD => "MOVE_FORWARD"
  | .TURN_LEFT => "TURN_LEFT"
  | .TURN_RIGHT => "TURN_RIGHT"
  | .STOP => "STOP"

/-- Human message for a command (`vision_supervisor._describe_command`). -/
def describeCommand : NavigationCommand → String
  | .MOVE_FORWARD => "Clear path ahead"
  | .TURN_LEFT => "Obstacle ahead, veer left"
  | .TURN_RIGHT => "Obstacle ahead, veer right"
  | .STOP => "Stop immediately"

namespace NavigationSupervisor

/-- Columns of the left band: `mask[:, : w // 3]`. -/
def leftCols (w : ℕ) : Finset ℕ := Finset.Ico 0 (w / 3)

/-- Columns of the center band: `mask[:, w // 3 : 2 * w // 3]`
(Python precedence: `2 * w // 3` is `(2 * w) / 3`). -/
def centerCols (w : ℕ) : Finset ℕ := Finset.Ico (w / 3) (2 * w / 3)

/-- Columns of the right band: `mask[:, 2 * w // 3 :]`. -/
def rightCols (w : ℕ) : Finset ℕ := Finset.Ico (2 * w / 3) w

/-- Number of occupied cells of the occupancy mask `occ` in rows `[0, h)`
restricted to the columns `cols`. -/
def bandCount (occ : ℕ → ℕ → Bool) (h : ℕ) (cols : Finset ℕ) : ℕ :=
  ∑ r ∈ Finset.range h, (cols.filter fun c => occ r c).card

/-- Mean occupancy of a band: `np.mean` of the 0/1 mask slice, i.e. the number
of occupied cells divided by the slice size `h * cols.card`. -/
def bandMean (occ : ℕ → ℕ → Bool) (h : ℕ) (cols : Finset ℕ) : ℚ :=
  (bandCount occ h cols : ℚ) / ((h * cols.card : ℕ) : ℚ)

/-- Whether the occupancy mask has any occupied pixel: `np.any(mask)`. -/
def maskAny (occ : ℕ → ℕ → Bool) (h w : ℕ) : Bool :=
  decide (0 < bandCount occ h (Finset.range w))

/-- Zone decision engine, `NavigationSupervisor._decide` from the occupancy
mask on (source lines 355-373).  The mask built from the detections (lines
343-353) is taken as the input `occ`, so all occupancy maps any detection set
could produce are covered; `thresh` is `self.cfg.obstacle_threshold` and the
literal `1.2` is exactly `6/5`. -/
def decideCommand (occ : ℕ → ℕ → Bool) (h w : ℕ) (thresh : ℚ) : NavigationCommand :=
  if ¬ maskAny occ h w then .MOVE_FORWARD
  else
    let left := bandMean occ h (leftCols w)
    let center := bandMean occ h (centerCols w)
    let right := bandMean occ h (rightCols w)
    if center > thresh then
      if left < right then .TURN_LEFT
      else if right < left then .TURN_RIGHT
      else .STOP
    else if left > thresh * (6 / 5) then .TURN_RIGHT
    else if right > thresh * (6 / 5) then .TURN_LEFT
    else .MOVE_FORWARD

/-- Debounce gate `NavigationSupervisor._ready_to_publish` (lines 375-380):
state is `self._last_publish`, `now` is `time.time()`.  Returns the boolean
result and the new `_last_publish` value. -/
def readyToPublish (lastPublish now : ℚ) : Bool × ℚ :=
  if now - lastPublish < 1 / 2 then (false, lastPublish)
  else (true, now)

/-- The HTTP POST assembled by `NavigationSupervisor._publish` (lines 382-401). -/
structure PublishRequest where
  url : String
  room : String
  command : String
  message : String
  source : String
  authorization : Option String
  timeoutSeconds : ℚ
deriving DecidableEq, Repr

/-- Request built by `_publish`: `none` when `api_base_url` is falsy (empty) and
the method returns without posting; otherwise the POST to
`f"{self.cfg.api_base_url}/api/navigation/decision"` with payload
`{room, command, message, source}` and a bearer header exactly when
`self.cfg.api_token` is truthy (present and non-empty). -/
def publishRequest (api_base_url : String) (api_token : Option String)
    (livekit_room : String) (decision : NavigationCommand) : Option PublishRequest :=
  if api_base_url = "" then none
  else some
    { url := api_base_url ++ "/api/navigation/decision"
      room := livekit_room
      command := decision.value
      message := describeCommand decision
      source := "vision"
      authorization :=
        match api_token with
        | none => none
        | some tok => if tok = "" then none else some ("Bearer " ++ tok)
      timeoutSeconds := 5 }

/-- Capacity of the live-mode frame queue: `asyncio.Queue(maxsize=1)` (line 157). -/
def liveFrameQueueMaxsize : ℕ := 1

/-- Drop-oldest enqueue, `NavigationSupervisor._enqueue_frame` (lines 285-296):
if the queue is full, `get_nowait` evicts the oldest pending frame (head);
then `put_nowait` appends the new frame unless still full (`QueueFull` is
swallowed).  Both calls are non-suspending, so the whole operation is a total
function of the queue state. -/
def enqueueFrame {α : Type} (maxsize : ℕ) (q : List α) (f : α) : List α :=
  let q1 := if maxsize ≤ q.length then q.drop 1 else q
  if q1.length < maxsize then q1 ++ [f] else q1

end NavigationSupervisor

/-- Decision entry stored per room (`api/services/navigation.py`, `DecisionEntry`). -/
structure DecisionEntry where
  sequence : ℕ
  room : String
  command : NavigationCommand
  message : Option String
  confidence : Option ℚ
  source : Option String
  created_at : ℚ
  expires_at : ℚ
deriving DecidableEq, Repr

/-- Destination entry per room (`api/services/navigation.py`, `DestinationEntry`). -/
structure DestinationEntry where
  room : String
  latitude : ℚ
  longitude : ℚ
  label : Option String
  requested_by : Option String
  updated_at : ℚ
deriving DecidableEq, Repr

/-- In-memory store `NavigationStateStore`.  The `Lock` only serializes the
methods, which the state-passing embedding models by construction. -/
structure NavigationStateStore where
  ttl : ℤ
  historyLimit : ℤ
  sequence : ℕ
  decisions : String → Option DecisionEntry
  history : String → List DecisionEntry
  destinations : String → Option DestinationEntry

namespace NavigationStateStore

/-- Constructor `NavigationStateStore.__init__`: clamps
`self._ttl = max(ttl_seconds, 1)` and `self._history_limit = max(history_limit, 1)`,
starts the sequence at 0 with empty dicts. -/
def init (ttl_seconds history_limit : ℤ) : NavigationStateStore where
  ttl := max ttl_seconds 1
  historyLimit := max history_limit 1
  sequence := 0
  decisions := fun _ => none
  history := fun _ => []
  destinations := fun _ => none

/-- `record_decision` (lines 45-73): allocates the next sequence, stamps
`created_at = now` and `expires_at = now + ttl`, overwrites the room's latest,
appends to the room's history and pops the oldest entry if the ring exceeds
the limit.  Returns the entry and the new store. -/
def record_decision (s : NavigationStateStore) (now : ℚ) (room : String)
    (command : NavigationCommand) (message : Option String)
    (confidence : Option ℚ) (source : Option String) :
    DecisionEntry × NavigationStateStore :=
  let seq := s.sequence + 1
  let entry : DecisionEntry :=
    { sequence := seq
      room := room
      command := command
      message := message
      confidence := confidence
      source := source
      created_at := now
      expires_at := now + (s.ttl : ℚ) }
  let history1 := s.history room ++ [entry]
  let history2 := if (history1.length : ℤ) > s.historyLimit then history1.drop 1 else history1
  (entry,
    { s with
        sequence := seq
        decisions := fun r => if r = room then some entry else s.decisions r
        history := fun r => if r = room then history2 else s.history r })

/-- `get_latest_decision` (lines 75-84): absent → `None`; expired
(`entry.expires_at < now`) → delete the room's latest and return `None`;
otherwise return the entry.  Returns the result and the new store. -/
def get_latest_decision (s : NavigationStateStore) (now : ℚ) (room : String) :
    Option DecisionEntry × NavigationStateStore :=
  match s.decisions room with
  | none => (none, s)
  | some entry =>
    if entry.expires_at < now then
      (none, { s with decisions := fun r => if r = room then none else s.decisions r })
    else
      (some entry, s)

/-- `get_history` (lines 86-88): a snapshot (`tuple(...)` copy) of the room's
history ring, oldest first. -/
def get_history (s : NavigationStateStore) (room : String) : List DecisionEntry :=
  s.history room

/-- `set_destination` (lines 90-102): unconditional overwrite,
`updated_at = now`. -/
def set_destination (s : NavigationStateStore) (now : ℚ) (room : String)
    (latitude longitude : ℚ) (label requested_by : Option String) :
    DestinationEntry × NavigationStateStore :=
  let entry : DestinationEntry :=
    { room := room, latitude := latitude, longitude := longitude
      label := label, requested_by := requested_by, updated_at := now }
  (entry, { s with destinations := fun r => if r = room then some entry else s.destinations r })

/-- `get_destination` (lines 104-106). -/
def get_destination (s : NavigationStateStore) (room : String) : Option DestinationEntry :=
  s.destinations room

/-- `clear_destination` (lines 108-110): `pop(room, None)`. -/
def clear_destination (s : NavigationStateStore) (room : String) : NavigationStateStore :=
  { s with destinations := fun r => if r = room then none else s.destinations r }

end NavigationStateStore

/-- One `record_decision` call: its wall-clock time and arguments. -/
structure RecOp where
  now : ℚ
  room : String
  command : NavigationCommand
  message : Option String
  confidence : Option ℚ
  source : Option String

namespace NavigationStateStore

/-- Entry produced by the `record_decision` call `op` on store `s`. -/
def recEntry (s : NavigationStateStore) (op : RecOp) : DecisionEntry :=
  (s.record_decision op.now op.room op.command op.message op.confidence op.source).1

/-- Store after the `record_decision` call `op`. -/
def applyRec (s : NavigationStateStore) (op : RecOp) : NavigationStateStore :=
  (s.record_decision op.now op.room op.command op.message op.confidence op.source).2

/-- Store after a sequence of `record_decision` calls. -/
def runRec (s : NavigationStateStore) : List RecOp → NavigationStateStore
  | [] => s
  | op :: rest => (s.applyRec op).runRec rest

/-- Entries returned by a sequence of `record_decision` calls, in call order. -/
def entriesTrace (s : NavigationStateStore) : List RecOp → List DecisionEntry
  | [] => []
  | op :: rest => s.recEntry op :: (s.applyRec op).entriesTrace rest

/-- Entries recorded for one room by a sequence of calls, in call order. -/
def roomTrace (s : NavigationStateStore) (ops : List RecOp) (room : String) :
    List DecisionEntry :=
  (s.entriesTrace ops).filter fun e => e.room == room

end NavigationStateStore

/-- Concrete store `NavigationStateStore(ttl_seconds=5, history_limit=1)` for the
capacity-eviction scenario. -/
def cexStore0 : NavigationStateStore := NavigationStateStore.init 5 1

/-- First `record_decision` on [cexStore0] at time 0. -/
def cexRec1 : DecisionEntry × NavigationStateStore :=
  cexStore0.record_decision 0 "R1" .TURN_LEFT none (some (8 / 10)) none

/-- Second `record_decision`, at time 1, on the store after [cexRec1]. -/
def cexRec2 : DecisionEntry × NavigationStateStore :=
  cexRec1.2.record_decision 1 "R1" .STOP none (some (95 / 100)) none

section ListHelpers

variable {α : Type}

/-- Length of a right-take. -/
lemma rtake_length (l : List α) (n : ℕ) : (l.rtake n).length = min l.length n := by
  simp only [List.rtake, List.length_drop]
  omega

/-- A right-take of at least the whole list is the list. -/
lemma rtake_of_length_le {l : List α} {n : ℕ} (h : l.length ≤ n) : l.rtake n = l := by
  simp [List.rtake, Nat.sub_eq_zero_of_le h]

/-- Right-taking is absorbed over prepends: taking the last `n` of an already
right-taken prefix followed by `ys` equals right-taking the full concatenation. -/
lemma rtake_append_rtake (xs ys : List α) (n : ℕ) :
    (xs.rtake n ++ ys).rtake n = (xs ++ ys).rtake n := by
  simp only [List.rtake, List.drop_append_eq_append_drop, List.drop_drop,
    List.length_append, List.length_drop]
  congr 1
  · congr 1
    omega
  · congr 1
    omega

/-- In a list whose mapped keys are pairwise increasing, the last element has
the largest key. -/
lemma pairwise_lt_getLast_max {β : Type} (key : β → ℕ) :
    ∀ (l : List β), (l.map key).Pairwise (· < ·) →
      ∀ x, l.getLast? = some x → ∀ e ∈ l, key e ≤ key x := by
  intro l
  induction l with
  | nil => simp
  | cons a t ih =>
    intro hp x hx e he
    cases t with
    | nil =>
      simp only [List.getLast?_singleton, Option.some.injEq] at hx
      simp only [List.mem_singleton] at he
      subst hx
      subst he
      exact le_refl _
    | cons b t2 =>
      rw [List.getLast?_cons_cons] at hx
      simp only [List.map_cons, List.pairwise_cons] at hp
      have hxmem : x ∈ b :: t2 := List.mem_of_mem_getLast? (by simp [hx])
      rcases List.mem_cons.mp he with rfl | he2
      · have hkmem : key x ∈ key b :: List.map key t2 := by
          simpa using List.mem_map_of_mem key hxmem
        exact le_of_lt (hp.1 (key x) hkmem)
      · have hp2 : ((b :: t2).map key).Pairwise (· < ·) := by
          simp only [List.map_cons, List.pairwise_cons]
          exact ⟨hp.2.1, hp.2.2⟩
        exact ih hp2 x hx e he2

end ListHelpers

namespace NavigationSupervisor

/-- Band counts are monotone in the column set. -/
lemma bandCount_mono (occ : ℕ → ℕ → Bool) (h : ℕ) {cols cols' : Finset ℕ}
    (hsub : cols ⊆ cols') : bandCount occ h cols ≤ bandCount occ h cols' := by
  unfold bandCount
  exact Finset.sum_le_sum fun r _ =>
    Finset.card_le_card (Finset.filter_subset_filter _ hsub)

/-- A band of a mask with a mean above a nonnegative threshold has an occupied
cell. -/
lemma bandMean_pos_count {occ : ℕ → ℕ → Bool} {h : ℕ} {cols : Finset ℕ}
    {thresh : ℚ} (ht : 0 ≤ thresh) (hm : thresh < bandMean occ h cols) :
    0 < bandCount occ h cols := by
  by_contra hc
  push_neg at hc
  have h0 : bandCount occ h cols = 0 := Nat.le_zero.mp hc
  rw [bandMean, h0] at hm
  simp at hm
  exact absurd hm (not_lt.mpr ht)

/-- A band with no occupied cell has mean zero. -/
lemma bandMean_of_count_zero {occ : ℕ → ℕ → Bool} {h : ℕ} {cols : Finset ℕ}
    (h0 : bandCount occ h cols = 0) : bandMean occ h cols = 0 := by
  rw [bandMean, h0]
  simp

/-- The center band sits inside the frame columns. -/
lemma centerCols_subset_range (w : ℕ) : centerCols w ⊆ Finset.range w := by
  intro c hc
  simp only [centerCols, Finset.mem_Ico] at hc
  simp only [Finset.mem_range]
  omega

/-- The left band sits inside the frame columns. -/
lemma leftCols_subset_range (w : ℕ) : leftCols w ⊆ Finset.range w := by
  intro c hc
  simp only [leftCols, Finset.mem_Ico] at hc
  simp only [Finset.mem_range]
  omega

/-- The right band sits inside the frame columns. -/
lemma rightCols_subset_range (w : ℕ) : rightCols w ⊆ Finset.range w := by
  intro c hc
  simp only [rightCols, Finset.mem_Ico] at hc
  simp only [Finset.mem_range]
  omega

end NavigationSupervisor

/-- getLast? of a cons, expressed through `Option.or`. -/
lemma getLast?_cons_or {α : Type} (a : α) (l : List α) :
    (a :: l).getLast? = (l.getLast?).or (some a) := by
  induction l generalizing a with
  | nil => rfl
  | cons b t ih =>
    rw [List.getLast?_cons_cons, ih b, Option.or_assoc]
    simp

namespace NavigationStateStore

/-- The `record_decision` history update keeps the last `historyLimit` entries:
append then pop-oldest-if-over equals a right-take, provided the ring respected
the bound before the call. -/
lemma record_history_step (old : List DecisionEntry) (e : DecisionEntry) (n : ℕ)
    (hn : 1 ≤ n) (hold : old.length ≤ n) :
    (if ((old ++ [e]).length : ℤ) > (n : ℤ) then (old ++ [e]).drop 1 else old ++ [e])
      = (old ++ [e]).rtake n := by
  by_cases hlen : old.length = n
  · have hcond : ((old ++ [e]).length : ℤ) > (n : ℤ) := by
      simp only [List.length_append, List.length_singleton, hlen]
      exact_mod_cast Nat.lt_succ_self n
    rw [if_pos hcond]
    simp only [List.rtake, List.length_append, List.length_singleton, hlen]
    congr 1
    omega
  · have hlt : old.length + 1 ≤ n := by omega
    have hcond : ¬ ((old ++ [e]).length : ℤ) > (n : ℤ) := by
      simp only [List.length_append, List.length_singleton]
      push_neg
      exact_mod_cast hlt
    rw [if_neg hcond]
    exact (rtake_of_length_le (by simpa using hlt)).symm

lemma applyRec_ttl (s : NavigationStateStore) (op : RecOp) :
    (s.applyRec op).ttl = s.ttl := rfl

lemma applyRec_historyLimit (s : NavigationStateStore) (op : RecOp) :
    (s.applyRec op).historyLimit = s.historyLimit := rfl

lemma applyRec_sequence (s : NavigationStateStore) (op : RecOp) :
    (s.applyRec op).sequence = s.sequence + 1 := rfl

lemma applyRec_destinations (s : NavigationStateStore) (op : RecOp) :
    (s.applyRec op).destinations = s.destinations := rfl

lemma recEntry_room (s : NavigationStateStore) (op : RecOp) :
    (s.recEntry op).room = op.room := rfl

lemma recEntry_sequence (s : NavigationStateStore) (op : RecOp) :
    (s.recEntry op).sequence = s.sequence + 1 := rfl

lemma applyRec_history (s : NavigationStateStore) (op : RecOp) (r : String) :
    (s.applyRec op).history r =
      if r = op.room then
        (if ((s.history op.room ++ [s.recEntry op]).length : ℤ) > s.historyLimit
          then (s.history op.room ++ [s.recEntry op]).drop 1
          else s.history op.room ++ [s.recEntry op])
      else s.history r := rfl

lemma applyRec_decisions (s : NavigationStateStore) (op : RecOp) (r : String) :
    (s.applyRec op).decisions r =
      if r = op.room then some (s.recEntry op) else s.decisions r := rfl

/-- Unfolding one call of a room's recorded-entry trace. -/
lemma roomTrace_cons (s : NavigationStateStore) (op : RecOp) (rest : List RecOp)
    (r : String) :
    s.roomTrace (op :: rest) r =
      (if op.room = r then [s.recEntry op] else []) ++ (s.applyRec op).roomTrace rest r := by
  simp only [roomTrace, entriesTrace, List.filter_cons]
  by_cases hr : op.room = r
  · simp [recEntry_room, hr]
  · simp [recEntry_room, hr]

/-- After any run of `record_decision` calls, a room's history ring is the
right-take (most recent `n` entries, oldest first) of its prior ring contents
followed by the entries recorded for it, where `n` is the history limit. -/
lemma runRec_history (ops : List RecOp) :
    ∀ (s : NavigationStateStore) (n : ℕ), s.historyLimit = (n : ℤ) → 1 ≤ n →
      (∀ r, (s.history r).length ≤ n) →
      ∀ r, (s.runRec ops).history r = (s.history r ++ s.roomTrace ops r).rtake n := by
  induction ops with
  | nil =>
    intro s n hL hn hlen r
    simp only [runRec, roomTrace, entriesTrace, List.filter_nil, List.append_nil]
    exact (rtake_of_length_le (hlen r)).symm
  | cons op rest ih =>
    intro s n hL hn hlen r
    have hstep : ∀ r2, (s.applyRec op).history r2 =
        if r2 = op.room then (s.history op.room ++ [s.recEntry op]).rtake n
        else s.history r2 := by
      intro r2
      rw [applyRec_history, hL]
      by_cases hr2 : r2 = op.room
      · rw [if_pos hr2, if_pos hr2,
          record_history_step (s.history op.room) (s.recEntry op) n hn (hlen op.room)]
      · rw [if_neg hr2, if_neg hr2]
    have hlen2 : ∀ r2, ((s.applyRec op).history r2).length ≤ n := by
      intro r2
      rw [hstep r2]
      by_cases hr2 : r2 = op.room
      · rw [if_pos hr2, rtake_length]
        omega
      · rw [if_neg hr2]
        exact hlen r2
    have hrec := ih (s.applyRec op) n (by rw [applyRec_historyLimit, hL]) hn hlen2 r
    show ((s.applyRec op).runRec rest).history r = _
    rw [hrec, roomTrace_cons, hstep r]
    by_cases hr : op.room = r
    · rw [if_pos hr.symm, if_pos hr]
      rw [rtake_append_rtake]
      rw [hr, List.append_assoc]
    · rw [if_neg (fun hc => hr hc.symm), if_neg hr]
      simp

/-- Every entry returned during a run of `record_decision` calls has a sequence
number above the store's counter at the start of the run. -/
lemma entriesTrace_seq_gt (ops : List RecOp) :
    ∀ (s : NavigationStateStore), ∀ e ∈ s.entriesTrace ops, s.sequence < e.sequence := by
  induction ops with
  | nil => simp [entriesTrace]
  | cons op rest ih =>
    intro s e he
    simp only [entriesTrace, List.mem_cons] at he
    rcases he with rfl | he2
    · rw [recEntry_sequence]
      omega
    · have := ih (s.applyRec op) e he2
      rw [applyRec_sequence] at this
      omega

/-- The sequence numbers of the entries returned by a run of `record_decision`
calls are strictly increasing, in call order, across all rooms. -/
lemma entriesTrace_pairwise (ops : List RecOp) :
    ∀ (s : NavigationStateStore),
      ((s.entriesTrace ops).map DecisionEntry.sequence).Pairwise (· < ·) := by
  induction ops with
  | nil => simp [entriesTrace]
  | cons op rest ih =>
    intro s
    simp only [entriesTrace, List.map_cons, List.pairwise_cons]
    refine ⟨?_, ih (s.applyRec op)⟩
    intro k hk
    simp only [List.mem_map] at hk
    obtain ⟨e, he, rfl⟩ := hk
    have := entriesTrace_seq_gt rest (s.applyRec op) e he
    rw [applyRec_sequence] at this
    rw [recEntry_sequence]
    omega

/-- After a run of `record_decision` calls, a room's latest slot holds the
most recently recorded entry for that room (or whatever was there before if
none was recorded for it). -/
lemma runRec_decisions (ops : List RecOp) :
    ∀ (s : NavigationStateStore) (r : String),
      (s.runRec ops).decisions r = ((s.roomTrace ops r).getLast?).or (s.decisions r) := by
  induction ops with
  | nil =>
    intro s r
    simp [runRec, roomTrace, entriesTrace]
  | cons op rest ih =>
    intro s r
    show ((s.applyRec op).runRec rest).decisions r = _
    rw [ih (s.applyRec op) r, roomTrace_cons]
    by_cases hr : op.room = r
    · rw [if_pos hr, applyRec_decisions, if_pos hr.symm]
      simp only [List.singleton_append]
      rw [getLast?_cons_or, Option.or_assoc]
      congr 1
    · rw [if_neg hr, applyRec_decisions, if_neg (fun hc => hr hc.symm)]
      simp

lemma get_latest_history (s : NavigationStateStore) (t : ℚ) (r : String) :
    ((s.get_latest_decision t r).2).history = s.history := by
  cases hd : s.decisions r with
  | none => simp [get_latest_decision, hd]
  | some e =>
    simp only [get_latest_decision, hd]
    by_cases he : e.expires_at < t
    · rw [if_pos he]
    · rw [if_neg he]

lemma get_latest_destinations (s : NavigationStateStore) (t : ℚ) (r : String) :
    ((s.get_latest_decision t r).2).destinations = s.destinations := by
  cases hd : s.decisions r with
  | none => simp [get_latest_decision, hd]
  | some e =>
    simp only [get_latest_decision, hd]
    by_cases he : e.expires_at < t
    · rw [if_pos he]
    · rw [if_neg he]

lemma get_latest_sequence (s : NavigationStateStore) (t : ℚ) (r : String) :
    ((s.get_latest_decision t r).2).sequence = s.sequence := by
  cases hd : s.decisions r with
  | none => simp [get_latest_decision, hd]
  | some e =>
    simp only [get_latest_decision, hd]
    by_cases he : e.expires_at < t
    · rw [if_pos he]
    · rw [if_neg he]

end NavigationStateStore

open NavigationSupervisor

/-- C1: if the center band's mean occupancy exceeds the (nonnegative)
obstacle threshold, `_decide` steers toward the less-occupied side:
`TURN_LEFT` when the left band's mean is strictly below the right band's,
`TURN_RIGHT` in the mirrored case, and `STOP` when the side means are equal.
Stated for frames with at least one row and at least three columns, so that
each band is nonempty (as in any real frame). -/
theorem decide_center_blocked (occ : ℕ → ℕ → Bool) (h w : ℕ) (thresh : ℚ)
    (hh : 1 ≤ h) (hw : 3 ≤ w) (ht : 0 ≤ thresh)
    (hc : thresh < bandMean occ h (centerCols w)) :
    (bandMean occ h (leftCols w) < bandMean occ h (rightCols w) →
        decideCommand occ h w thresh = .TURN_LEFT) ∧
    (bandMean occ h (rightCols w) < bandMean occ h (leftCols w) →
        decideCommand occ h w thresh = .TURN_RIGHT) ∧
    (bandMean occ h (leftCols w) = bandMean occ h (rightCols w) →
        decideCommand occ h w thresh = .STOP) := by
  have hcount : 0 < bandCount occ h (centerCols w) := bandMean_pos_count ht hc
  have hany : maskAny occ h w = true := by
    rw [maskAny, decide_eq_true_eq]
    exact lt_of_lt_of_le hcount (bandCount_mono occ h (centerCols_subset_range w))
  have hnn : ¬ ¬ (maskAny occ h w = true) := by simp [hany]
  refine ⟨?_, ?_, ?_⟩
  · intro hlr
    simp only [decideCommand, gt_iff_lt]
    rw [if_neg hnn, if_pos hc, if_pos hlr]
  · intro hrl
    simp only [decideCommand, gt_iff_lt]
    rw [if_neg hnn, if_pos hc, if_neg (by exact fun hx => absurd hrl (not_lt.mpr (le_of_lt hx))),
      if_pos hrl]
  · intro heq
    simp only [decideCommand, gt_iff_lt]
    rw [if_neg hnn, if_pos hc, if_neg (by rw [heq]; exact lt_irrefl _),
      if_neg (by rw [heq]; exact lt_irrefl _)]

/-- C1 witness: a frame of height 1 and width 3 whose only occupied pixel is
the center column, with threshold 2/5: both side bands are equally empty, so
the decision is `STOP`. -/
theorem decide_center_blocked_witness :
    decideCommand (fun _ c => c == 1) 1 3 (2 / 5) = .STOP := by
  have hcnt : bandCount (fun _ c => c == 1) 1 (centerCols 3) = 1 := by decide
  have hcard : (centerCols 3).card = 1 := by decide
  have hc : (2 / 5 : ℚ) < bandMean (fun _ c => c == 1) 1 (centerCols 3) := by
    rw [bandMean, hcnt, hcard]
    norm_num
  have hl0 : bandCount (fun _ c => c == 1) 1 (leftCols 3) = 0 := by decide
  have hr0 : bandCount (fun _ c => c == 1) 1 (rightCols 3) = 0 := by decide
  have heq : bandMean (fun _ c => c == 1) 1 (leftCols 3)
      = bandMean (fun _ c => c == 1) 1 (rightCols 3) := by
    rw [bandMean_of_count_zero hl0, bandMean_of_count_zero hr0]
  exact (decide_center_blocked (fun _ c => c == 1) 1 3 (2 / 5)
    (by norm_num) (by norm_num) (by norm_num) hc).2.2 heq

/-- C2 counterexample: for width `W = 7` (not divisible by 3) the extra column
beyond the equal thirds — column 6, which lies past `2*W/3 = 4` — belongs to
the RIGHT band of `_decide`'s slicing, not to the center band as the claim
states: the center band is `{2, 3}` (width `7/3 = 2`) while the right band is
`{4, 5, 6}` (width `7/3 + 1`). -/
theorem bands_remainder_counterexample :
    7 % 3 ≠ 0 ∧ (6 : ℕ) ∈ rightCols 7 ∧ (6 : ℕ) ∉ centerCols 7 ∧
    (centerCols 7).card = 7 / 3 ∧ (rightCols 7).card = 7 / 3 + 1 := by
  decide

/-- C2 amended: `_decide` partitions the columns into left `[0, W/3)`, center
`[W/3, (2*W)/3)` and right `[(2*W)/3, W)` bands (integer division).  The bands
are pairwise disjoint and cover the frame; the remainder columns beyond the
equal thirds go to the right band when `W % 3 = 1`, and one each to the center
and right bands when `W % 3 = 2` — never to the center alone. -/
theorem bands_partition (w : ℕ) :
    leftCols w ∪ centerCols w ∪ rightCols w = Finset.range w ∧
    Disjoint (leftCols w) (centerCols w) ∧
    Disjoint (centerCols w) (rightCols w) ∧
    Disjoint (leftCols w) (rightCols w) ∧
    (leftCols w).card = w / 3 ∧
    (centerCols w).card = 2 * w / 3 - w / 3 ∧
    (rightCols w).card = w - 2 * w / 3 ∧
    (w % 3 = 1 → (centerCols w).card = w / 3 ∧ (rightCols w).card = w / 3 + 1) ∧
    (w % 3 = 2 → (centerCols w).card = w / 3 + 1 ∧ (rightCols w).card = w / 3 + 1) := by
  have hcl : (leftCols w).card = w / 3 := by rw [leftCols, Nat.card_Ico]; omega
  have hcc : (centerCols w).card = 2 * w / 3 - w / 3 := by rw [centerCols, Nat.card_Ico]
  have hcr : (rightCols w).card = w - 2 * w / 3 := by rw [rightCols, Nat.card_Ico]
  refine ⟨?_, ?_, ?_, ?_, hcl, hcc, hcr, ?_, ?_⟩
  · ext c
    simp only [leftCols, centerCols, rightCols, Finset.mem_union, Finset.mem_Ico,
      Finset.mem_range]
    omega
  · rw [Finset.disjoint_left]
    intro c hc1 hc2
    simp only [leftCols, centerCols, Finset.mem_Ico] at hc1 hc2
    omega
  · rw [Finset.disjoint_left]
    intro c hc1 hc2
    simp only [centerCols, rightCols, Finset.mem_Ico] at hc1 hc2
    omega
  · rw [Finset.disjoint_left]
    intro c hc1 hc2
    simp only [leftCols, rightCols, Finset.mem_Ico] at hc1 hc2
    omega
  · intro hm
    rw [hcc, hcr]
    omega
  · intro hm
    rw [hcc, hcr]
    omega

/-- C2 amended witness: at width 7 (`7 % 3 = 1`), the center band has exactly
`7/3` columns and the right band `7/3 + 1`. -/
theorem bands_partition_witness :
    (centerCols 7).card = 7 / 3 ∧ (rightCols 7).card = 7 / 3 + 1 :=
  (bands_partition 7).2.2.2.2.2.2.2.1 (by decide)

/-- C6: when the center band's mean does not exceed the (nonnegative)
threshold, `_decide` returns `TURN_RIGHT` if the left band's mean exceeds
`threshold * 1.2`, else `TURN_LEFT` if the right band's mean exceeds
`threshold * 1.2`, else `MOVE_FORWARD` — including the all-clear early return
for an empty mask. -/
theorem decide_side_bands (occ : ℕ → ℕ → Bool) (h w : ℕ) (thresh : ℚ)
    (hh : 1 ≤ h) (hw : 3 ≤ w) (ht : 0 ≤ thresh)
    (hc : ¬ thresh < bandMean occ h (centerCols w)) :
    (thresh * (6 / 5) < bandMean occ h (leftCols w) →
        decideCommand occ h w thresh = .TURN_RIGHT) ∧
    (¬ thresh * (6 / 5) < bandMean occ h (leftCols w) →
        thresh * (6 / 5) < bandMean occ h (rightCols w) →
        decideCommand occ h w thresh = .TURN_LEFT) ∧
    (¬ thresh * (6 / 5) < bandMean occ h (leftCols w) →
        ¬ thresh * (6 / 5) < bandMean occ h (rightCols w) →
        decideCommand occ h w thresh = .MOVE_FORWARD) := by
  have ht12 : 0 ≤ thresh * (6 / 5) := by positivity
  by_cases hany : maskAny occ h w = true
  · have hnn : ¬ ¬ (maskAny occ h w = true) := by simp [hany]
    refine ⟨?_, ?_, ?_⟩
    · intro hl
      simp only [decideCommand, gt_iff_lt]
      rw [if_neg hnn, if_neg hc, if_pos hl]
    · intro hnl hr
      simp only [decideCommand, gt_iff_lt]
      rw [if_neg hnn, if_neg hc, if_neg hnl, if_pos hr]
    · intro hnl hnr
      simp only [decideCommand, gt_iff_lt]
      rw [if_neg hnn, if_neg hc, if_neg hnl, if_neg hnr]
  · have hz : bandCount occ h (Finset.range w) = 0 := by
      rw [maskAny, decide_eq_true_eq] at hany
      omega
    have hzl : bandMean occ h (leftCols w) = 0 :=
      bandMean_of_count_zero (Nat.le_zero.mp (hz ▸ bandCount_mono occ h (leftCols_subset_range w)))
    have hzr : bandMean occ h (rightCols w) = 0 :=
      bandMean_of_count_zero (Nat.le_zero.mp (hz ▸ bandCount_mono occ h (rightCols_subset_range w)))
    have hcmd : decideCommand occ h w thresh = .MOVE_FORWARD := by
      rw [decideCommand, if_pos (by simp [hany])]
    refine ⟨?_, ?_, ?_⟩
    · intro hl
      rw [hzl] at hl
      exact absurd hl (not_lt.mpr ht12)
    · intro hnl hr
      rw [hzr] at hr
      exact absurd hr (not_lt.mpr ht12)
    · intro hnl hnr
      exact hcmd

/-- C6 witness: a frame of height 1 and width 3 whose only occupied pixel is
the left column, with threshold 2/5: the left band's mean 1 exceeds
`2/5 * 1.2`, the center is clear, so the decision is `TURN_RIGHT`. -/
theorem decide_side_bands_witness :
    decideCommand (fun _ c => c == 0) 1 3 (2 / 5) = .TURN_RIGHT := by
  have hc0 : bandCount (fun _ c => c == 0) 1 (centerCols 3) = 0 := by decide
  have hc : ¬ (2 / 5 : ℚ) < bandMean (fun _ c => c == 0) 1 (centerCols 3) := by
    rw [bandMean_of_count_zero hc0]
    norm_num
  have hlcnt : bandCount (fun _ c => c == 0) 1 (leftCols 3) = 1 := by decide
  have hlcard : (leftCols 3).card = 1 := by decide
  have hl : (2 / 5 : ℚ) * (6 / 5) < bandMean (fun _ c => c == 0) 1 (leftCols 3) := by
    rw [bandMean, hlcnt, hlcard]
    norm_num
  exact (decide_side_bands (fun _ c => c == 0) 1 3 (2 / 5)
    (by norm_num) (by norm_num) (by norm_num) hc).1 hl

/-- C7: the publish gate is a debounce.  After a call that returned true the
stored timestamp is the call's time; a further call strictly within 0.5
seconds of that returns false and leaves the timestamp unchanged, and a call
at least 0.5 seconds later returns true (and re-stamps).  A false result
never changes the timestamp. -/
theorem ready_to_publish_debounce (l t1 : ℚ) :
    ((readyToPublish l t1).1 = true → (readyToPublish l t1).2 = t1) ∧
    ((readyToPublish l t1).1 = false → (readyToPublish l t1).2 = l) ∧
    (∀ t2, t2 - t1 < 1 / 2 → readyToPublish t1 t2 = (false, t1)) ∧
    (∀ t2, 1 / 2 ≤ t2 - t1 → readyToPublish t1 t2 = (true, t2)) := by
  refine ⟨?_, ?_, ?_, ?_⟩
  · intro h1
    rw [readyToPublish] at h1 ⊢
    by_cases hc : t1 - l < 1 / 2
    · rw [if_pos hc] at h1
      exact absurd h1 (by simp)
    · rw [if_neg hc]
  · intro h1
    rw [readyToPublish] at h1 ⊢
    by_cases hc : t1 - l < 1 / 2
    · rw [if_pos hc]
    · rw [if_neg hc] at h1
      exact absurd h1 (by simp)
  · intro t2 h2
    rw [readyToPublish, if_pos h2]
  · intro t2 h2
    rw [readyToPublish, if_neg (not_lt.mpr h2)]

/-- C7 witness: after a publish at time 0, a call at 1/4 returns false leaving
the stamp, and a call at 1/2 (exactly the interval) returns true. -/
theorem ready_to_publish_debounce_witness :
    readyToPublish 0 (1 / 4) = (false, 0) ∧ readyToPublish 0 (1 / 2) = (true, 1 / 2) :=
  ⟨(ready_to_publish_debounce (-1) 0).2.2.1 (1 / 4) (by norm_num),
   (ready_to_publish_debounce (-1) 0).2.2.2 (1 / 2) (by norm_num)⟩

/-- C8: on the capacity-1 live frame queue, `_enqueue_frame` is a total
(never-suspending) function that leaves exactly the new frame pending: a full
slot is evicted first, so the queue never holds more than one frame. -/
theorem enqueue_frame_single_slot {α : Type} (q : List α) (f : α) (hq : q.length ≤ 1) :
    enqueueFrame liveFrameQueueMaxsize q f = [f] ∧
    (enqueueFrame liveFrameQueueMaxsize q f).length ≤ 1 := by
  have heq : enqueueFrame liveFrameQueueMaxsize q f = [f] := by
    match q, hq with
    | [], _ => rfl
    | [x], _ => rfl
    | x :: y :: t, hq2 => simp at hq2
  exact ⟨heq, by rw [heq]; exact le_refl _⟩

/-- C8 witness: enqueueing frame 7 while frame 5 is pending evicts 5 and
leaves exactly 7. -/
theorem enqueue_frame_single_slot_witness :
    enqueueFrame liveFrameQueueMaxsize [5] 7 = [7] :=
  (@enqueue_frame_single_slot ℕ [5] 7 (by decide)).1

/-- C9 counterexample: `_publish` posts to `<base_url>/api/navigation/decision`,
not `<base_url>/navigation/decision` as the claim states: with base URL
`http://api.local` the request URL carries the extra `/api` prefix segment. -/
theorem publish_url_counterexample :
    (publishRequest "http://api.local" none "R1" .STOP).map PublishRequest.url
      = some "http://api.local/api/navigation/decision" ∧
    "http://api.local/api/navigation/decision" ≠ "http://api.local/navigation/decision" := by
  refine ⟨rfl, ?_⟩
  decide

/-- C9 amended: for every non-empty base URL, `_publish` issues a POST whose
URL is the base URL followed by `/api/navigation/decision`, whose body carries
the room, command value, human message and `"vision"` source, and whose bearer
Authorization header is present exactly when a (non-empty) API token is
configured. -/
theorem publish_request_amended (base : String) (token : Option String) (room : String)
    (d : NavigationCommand) (hb : ¬ base = "") :
    (publishRequest base token room d).isSome = true ∧
    ∀ req, publishRequest base token room d = some req →
      req.url = base ++ "/api/navigation/decision" ∧
      req.room = room ∧
      req.command = d.value ∧
      req.message = describeCommand d ∧
      req.source = "vision" ∧
      req.timeoutSeconds = 5 ∧
      (∀ tok, token = some tok → ¬ tok = "" → req.authorization = some ("Bearer " ++ tok)) ∧
      (token = none → req.authorization = none) ∧
      (token = some "" → req.authorization = none) := by
  unfold publishRequest
  rw [if_neg hb]
  refine ⟨rfl, ?_⟩
  intro req hreq
  cases hreq
  refine ⟨rfl, rfl, rfl, rfl, rfl, rfl, ?_, ?_, ?_⟩
  · intro tok htok hne
    subst htok
    simp [hne]
  · intro htok
    subst htok
    rfl
  · intro htok
    subst htok
    simp

/-- C9 amended witness: with base `http://b` and token `tk`, the request
exists and its URL is `http://b/api/navigation/decision`. -/
theorem publish_request_amended_witness :
    (publishRequest "http://b" (some "tk") "R1" .MOVE_FORWARD).isSome = true :=
  (publish_request_amended "http://b" (some "tk") "R1" .MOVE_FORWARD (by decide)).1

namespace NavigationStateStore

/-- `get_latest_decision` on a room with no latest entry returns absent and
leaves the store unchanged. -/
lemma get_latest_absent (s : NavigationStateStore) (now : ℚ) (r : String)
    (hd : s.decisions r = none) : s.get_latest_decision now r = (none, s) := by
  simp only [get_latest_decision, hd]

/-- `get_latest_decision` on a non-expired latest entry returns it and leaves
the store unchanged. -/
lemma get_latest_not_expired (s : NavigationStateStore) (now : ℚ) (r : String)
    (x : DecisionEntry) (hd : s.decisions r = some x) (hx : ¬ x.expires_at < now) :
    s.get_latest_decision now r = (some x, s) := by
  simp only [get_latest_decision, hd]
  rw [if_neg hx]

/-- `get_latest_decision` on an expired latest entry evicts it and returns
absent. -/
lemma get_latest_expired (s : NavigationStateStore) (now : ℚ) (r : String)
    (x : DecisionEntry) (hd : s.decisions r = some x) (hx : x.expires_at < now) :
    s.get_latest_decision now r
      = (none, { s with decisions := fun r2 => if r2 = r then none else s.decisions r2 }) := by
  simp only [get_latest_decision, hd]
  rw [if_pos hx]

/-- `record_decision` installs the returned entry as the room's latest. -/
lemma record_decisions_self (s : NavigationStateStore) (now : ℚ) (r : String)
    (cmd : NavigationCommand) (m : Option String) (c : Option ℚ) (src : Option String) :
    (s.record_decision now r cmd m c src).2.decisions r
      = some (s.record_decision now r cmd m c src).1 := by
  simp [record_decision]

end NavigationStateStore

/-- C3 counterexample: the claim says the entry is absent once elapsed time is
at least the TTL, but `get_latest_decision` evicts only when
`expires_at < now` (strictly more than TTL elapsed).  With TTL 5, an entry
recorded at time 0 is still returned at time 5, exactly TTL seconds later. -/
theorem ttl_boundary_counterexample :
    ((NavigationStateStore.init 5 3).ttl : ℚ) ≤ (5 : ℚ) - 0 ∧
    (((NavigationStateStore.init 5 3).record_decision 0 "R1" .STOP none none
        none).2.get_latest_decision 5 "R1").1
      = some ((NavigationStateStore.init 5 3).record_decision 0 "R1" .STOP none none none).1 := by
  have httl : (NavigationStateStore.init 5 3).ttl = 5 := by decide
  constructor
  · rw [httl]
    norm_num
  · have hd := NavigationStateStore.record_decisions_self
      (NavigationStateStore.init 5 3) 0 "R1" .STOP none none none
    have hexp : ((NavigationStateStore.init 5 3).record_decision 0 "R1" .STOP none none
        none).1.expires_at = 0 + ((NavigationStateStore.init 5 3).ttl : ℚ) := rfl
    have hne : ¬ ((NavigationStateStore.init 5 3).record_decision 0 "R1" .STOP none none
        none).1.expires_at < (5 : ℚ) := by
      rw [hexp, httl]
      norm_num
    rw [NavigationStateStore.get_latest_not_expired _ 5 "R1" _ hd hne]

/-- C3 amended: on a store with (clamped, positive) TTL, a recorded decision
is returned by an immediate read; once STRICTLY more than TTL seconds have
elapsed, `get_latest_decision` returns absent and evicts the entry, and every
later read of the room (with no new record) also returns absent. -/
theorem ttl_expiry_amended (s : NavigationStateStore) (httl : 1 ≤ s.ttl) (t0 : ℚ)
    (r : String) (cmd : NavigationCommand) (m : Option String) (c : Option ℚ)
    (src : Option String) :
    ((s.record_decision t0 r cmd m c src).2.get_latest_decision t0 r)
        = (some (s.record_decision t0 r cmd m c src).1,
           (s.record_decision t0 r cmd m c src).2) ∧
    ∀ t1, (s.ttl : ℚ) < t1 - t0 →
      ((s.record_decision t0 r cmd m c src).2.get_latest_decision t1 r).1 = none ∧
      (((s.record_decision t0 r cmd m c src).2.get_latest_decision t1 r).2).decisions r
        = none ∧
      ∀ t2, ((((s.record_decision t0 r cmd m c src).2.get_latest_decision t1
          r).2).get_latest_decision t2 r).1 = none := by
  have httlQ : (1 : ℚ) ≤ (s.ttl : ℚ) := by exact_mod_cast httl
  have hd := NavigationStateStore.record_decisions_self s t0 r cmd m c src
  have hexp : (s.record_decision t0 r cmd m c src).1.expires_at = t0 + (s.ttl : ℚ) := rfl
  constructor
  · apply NavigationStateStore.get_latest_not_expired _ _ _ _ hd
    rw [hexp]
    linarith
  · intro t1 ht1
    have hlt : (s.record_decision t0 r cmd m c src).1.expires_at < t1 := by
      rw [hexp]
      linarith
    have hres := NavigationStateStore.get_latest_expired _ t1 r _ hd hlt
    have hd2 : (((s.record_decision t0 r cmd m c src).2.get_latest_decision t1
        r).2).decisions r = none := by
      rw [hres]
      simp
    refine ⟨by rw [hres], hd2, ?_⟩
    intro t2
    rw [NavigationStateStore.get_latest_absent _ t2 r hd2]

/-- C3 amended witness: TTL 5 store, record at time 0; read at time 0 returns
the entry, read at time 6 returns absent and the slot stays empty at time 7. -/
theorem ttl_expiry_amended_witness :
    (((NavigationStateStore.init 5 3).record_decision 0 "R1" .STOP none none
        none).2.get_latest_decision 6 "R1").1 = none := by
  have httl : (NavigationStateStore.init 5 3).ttl = 5 := by decide
  have h6 : ((NavigationStateStore.init 5 3).ttl : ℚ) < 6 - 0 := by
    rw [httl]
    norm_num
  exact ((ttl_expiry_amended (NavigationStateStore.init 5 3) (by decide) 0 "R1" .STOP
    none none none).2 6 h6).1

/-- C10 counterexample: with history limit 1, a second `record_decision` for
the same room evicts the first recorded entry from that room's history ring —
so `record_decision` does NOT leave the room's prior history entries in place
("only adds") as the claim states. -/
theorem frame_effect_counterexample :
    cexRec1.2.history "R1" = [cexRec1.1] ∧
    cexRec2.2.history "R1" = [cexRec2.1] ∧
    cexRec1.1 ∉ cexRec2.2.history "R1" := by
  refine ⟨rfl, rfl, ?_⟩
  intro hmem
  rw [show cexRec2.2.history "R1" = [cexRec2.1] from rfl, List.mem_singleton] at hmem
  exact absurd (congrArg DecisionEntry.sequence hmem) (by decide)

/-- C10 amended: store operations touch only their own room's slice, except
that `record_decision` at ring capacity also evicts the room's oldest history
entry.  `record_decision(R)` leaves every other room's latest entry and
history, and all destinations, unchanged; it increments the global sequence,
installs the new entry as R's latest and appends it to R's history (popping
the oldest when the ring would exceed the limit).  `get_latest_decision(R)`
never touches histories, destinations, the sequence counter or other rooms'
latest entries, and at most removes R's latest. -/
theorem store_frame_conditions (s : NavigationStateStore) (now : ℚ) (R : String)
    (cmd : NavigationCommand) (m : Option String) (c : Option ℚ) (src : Option String) :
    (∀ r, ¬ r = R → (s.record_decision now R cmd m c src).2.decisions r = s.decisions r) ∧
    (∀ r, ¬ r = R → (s.record_decision now R cmd m c src).2.history r = s.history r) ∧
    (s.record_decision now R cmd m c src).2.destinations = s.destinations ∧
    (s.record_decision now R cmd m c src).2.sequence = s.sequence + 1 ∧
    (s.record_decision now R cmd m c src).2.decisions R
      = some (s.record_decision now R cmd m c src).1 ∧
    ((s.record_decision now R cmd m c src).2.history R
        = s.history R ++ [(s.record_decision now R cmd m c src).1] ∨
      (s.record_decision now R cmd m c src).2.history R
        = (s.history R ++ [(s.record_decision now R cmd m c src).1]).drop 1) ∧
    (∀ t, ((s.get_latest_decision t R).2).history = s.history) ∧
    (∀ t, ((s.get_latest_decision t R).2).destinations = s.destinations) ∧
    (∀ t, ((s.get_latest_decision t R).2).sequence = s.sequence) ∧
    (∀ t r, ¬ r = R → ((s.get_latest_decision t R).2).decisions r = s.decisions r) ∧
    (∀ t, ((s.get_latest_decision t R).2).decisions R = s.decisions R ∨
          ((s.get_latest_decision t R).2).decisions R = none) := by
  refine ⟨?_, ?_, rfl, rfl, NavigationStateStore.record_decisions_self s now R cmd m c src,
    ?_, fun t => NavigationStateStore.get_latest_history s t R,
    fun t => NavigationStateStore.get_latest_destinations s t R,
    fun t => NavigationStateStore.get_latest_sequence s t R, ?_, ?_⟩
  · intro r hr
    simp [NavigationStateStore.record_decision, hr]
  · intro r hr
    simp [NavigationStateStore.record_decision, hr]
  · have hh : (s.record_decision now R cmd m c src).2.history R
        = (if ((s.history R ++ [(s.record_decision now R cmd m c src).1]).length : ℤ)
              > s.historyLimit
            then (s.history R ++ [(s.record_decision now R cmd m c src).1]).drop 1
            else s.history R ++ [(s.record_decision now R cmd m c src).1]) := by
      simp [NavigationStateStore.record_decision]
    rw [hh]
    by_cases hcond : ((s.history R ++ [(s.record_decision now R cmd m c src).1]).length : ℤ)
        > s.historyLimit
    · right
      rw [if_pos hcond]
    · left
      rw [if_neg hcond]
  · intro t r hr
    cases hd : s.decisions R with
    | none => rw [NavigationStateStore.get_latest_absent s t R hd]
    | some e =>
      by_cases he : e.expires_at < t
      · rw [NavigationStateStore.get_latest_expired s t R e hd he]
        simp [hr]
      · rw [NavigationStateStore.get_latest_not_expired s t R e hd he]
  · intro t
    cases hd : s.decisions R with
    | none =>
      left
      rw [NavigationStateStore.get_latest_absent s t R hd]
      exact hd
    | some e =>
      by_cases he : e.expires_at < t
      · right
        rw [NavigationStateStore.get_latest_expired s t R e hd he]
        simp
      · left
        rw [NavigationStateStore.get_latest_not_expired s t R e hd he]
        exact hd

/-- C10 amended witness: recording into room `R1` leaves room `R2`'s latest
slot untouched. -/
theorem store_frame_conditions_witness :
    ((NavigationStateStore.init 5 3).record_decision 0 "R1" .STOP none none
        none).2.decisions "R2" = (NavigationStateStore.init 5 3).decisions "R2" :=
  (store_frame_conditions (NavigationStateStore.init 5 3) 0 "R1" .STOP none none
    none).1 "R2" (by decide)

/-- C4: on a freshly constructed store with positive history limit `L`, after
any sequence of `record_decision` calls each room's ring holds exactly the
most recent `min(number recorded for the room, L)` entries, in insertion
order oldest first (the right-take of the room's recorded-entry trace), and
`get_latest_decision` — which expires the latest pointer — never changes any
history ring. -/
theorem history_ring_bounded (ttlArg limitArg : ℤ) (hL : 1 ≤ limitArg)
    (ops : List RecOp) (r : String) :
    ((NavigationStateStore.init ttlArg limitArg).runRec ops).get_history r
        = ((NavigationStateStore.init ttlArg limitArg).roomTrace ops r).rtake
            limitArg.toNat ∧
    (((NavigationStateStore.init ttlArg limitArg).runRec ops).get_history r).length
        = min ((NavigationStateStore.init ttlArg limitArg).roomTrace ops r).length
            limitArg.toNat ∧
    ∀ t r2, ((((NavigationStateStore.init ttlArg limitArg).runRec
          ops).get_latest_decision t r2).2).get_history r
        = ((NavigationStateStore.init ttlArg limitArg).runRec ops).get_history r := by
  have hlim : (NavigationStateStore.init ttlArg limitArg).historyLimit
      = (limitArg.toNat : ℤ) := by
    show max limitArg 1 = (limitArg.toNat : ℤ)
    rw [Int.toNat_of_nonneg (by linarith)]
    exact max_eq_left hL
  have hn : 1 ≤ limitArg.toNat := by omega
  have hmain := NavigationStateStore.runRec_history ops
    (NavigationStateStore.init ttlArg limitArg) limitArg.toNat hlim hn
    (fun r2 => by simp [NavigationStateStore.init]) r
  have hfirst : ((NavigationStateStore.init ttlArg limitArg).runRec ops).get_history r
      = ((NavigationStateStore.init ttlArg limitArg).roomTrace ops r).rtake
          limitArg.toNat := by
    show ((NavigationStateStore.init ttlArg limitArg).runRec ops).history r = _
    rw [hmain]
    show (([] : List DecisionEntry) ++ _).rtake _ = _
    rw [List.nil_append]
  refine ⟨hfirst, ?_, ?_⟩
  · rw [hfirst, rtake_length]
  · intro t r2
    show ((((NavigationStateStore.init ttlArg limitArg).runRec ops).get_latest_decision
        t r2).2).history r
      = ((NavigationStateStore.init ttlArg limitArg).runRec ops).history r
    rw [NavigationStateStore.get_latest_history]

/-- C4 witness: the spec scenario — two decisions for room `R1` on a store
with history limit 1: the ring length is `min 2 1 = 1`. -/
theorem history_ring_bounded_witness :
    (((NavigationStateStore.init 5 1).runRec
        ([⟨0, "R1", .TURN_LEFT, none, some (8 / 10), none⟩,
          ⟨1, "R1", .STOP, none, some (95 / 100), none⟩] : List RecOp)).get_history
        "R1").length
      = min (((NavigationStateStore.init 5 1).roomTrace
          ([⟨0, "R1", .TURN_LEFT, none, some (8 / 10), none⟩,
            ⟨1, "R1", .STOP, none, some (95 / 100), none⟩] : List RecOp) "R1").length)
          ((1 : ℤ)).toNat :=
  (history_ring_bounded 5 1 (by decide)
    ([⟨0, "R1", .TURN_LEFT, none, some (8 / 10), none⟩,
      ⟨1, "R1", .STOP, none, some (95 / 100), none⟩] : List RecOp) "R1").2.1

/-- C5: on a freshly constructed store, the sequence numbers of recorded
entries are strictly increasing across all rooms in call order; each room's
latest slot holds the most recently recorded entry for that room, which has
the maximal sequence among the room's entries; and while the latest entry is
not expired, `get_latest_decision` returns it and leaves the store (hence the
slot) unchanged. -/
theorem sequence_monotone_latest (ttlArg limitArg : ℤ) (ops : List RecOp) (r : String) :
    (((NavigationStateStore.init ttlArg limitArg).entriesTrace ops).map
        DecisionEntry.sequence).Pairwise (· < ·) ∧
    ((NavigationStateStore.init ttlArg limitArg).runRec ops).decisions r
      = ((NavigationStateStore.init ttlArg limitArg).roomTrace ops r).getLast? ∧
    (∀ x, ((NavigationStateStore.init ttlArg limitArg).roomTrace ops r).getLast? = some x →
      ∀ e ∈ (NavigationStateStore.init ttlArg limitArg).roomTrace ops r,
        e.sequence ≤ x.sequence) ∧
    (∀ now x,
      ((NavigationStateStore.init ttlArg limitArg).runRec ops).decisions r = some x →
      ¬ x.expires_at < now →
      ((NavigationStateStore.init ttlArg limitArg).runRec ops).get_latest_decision now r
        = (some x, (NavigationStateStore.init ttlArg limitArg).runRec ops)) := by
  refine ⟨NavigationStateStore.entriesTrace_pairwise ops _, ?_, ?_, ?_⟩
  · rw [NavigationStateStore.runRec_decisions]
    rw [show (NavigationStateStore.init ttlArg limitArg).decisions r = none from rfl]
    exact Option.or_none
  · intro x hx e he
    have hsub : (((NavigationStateStore.init ttlArg limitArg).roomTrace ops r).map
          DecisionEntry.sequence).Sublist
        (((NavigationStateStore.init ttlArg limitArg).entriesTrace ops).map
          DecisionEntry.sequence) :=
      List.Sublist.map _ (List.filter_sublist _)
    have hp := List.Pairwise.sublist hsub
      (NavigationStateStore.entriesTrace_pairwise ops
        (NavigationStateStore.init ttlArg limitArg))
    exact pairwise_lt_getLast_max DecisionEntry.sequence _ hp x hx e he
  · intro now x hx hexp
    exact NavigationStateStore.get_latest_not_expired _ now r x hx hexp

/-- C5 witness: one decision for room `A` on a fresh store; its entry sits in
the latest slot and an unexpired read at time 0 returns it unchanged. -/
theorem sequence_monotone_latest_witness :
    ((NavigationStateStore.init 5 3).runRec
        ([⟨0, "A", .STOP, none, none, none⟩] : List RecOp)).get_latest_decision 0 "A"
      = (some ((NavigationStateStore.init 5 3).recEntry ⟨0, "A", .STOP, none, none, none⟩),
         (NavigationStateStore.init 5 3).runRec
           ([⟨0, "A", .STOP, none, none, none⟩] : List RecOp)) := by
  have httl : (NavigationStateStore.init 5 3).ttl = 5 := by decide
  have hdec : ((NavigationStateStore.init 5 3).runRec
        ([⟨0, "A", .STOP, none, none, none⟩] : List RecOp)).decisions "A"
      = some ((NavigationStateStore.init 5 3).recEntry ⟨0, "A", .STOP, none, none, none⟩) :=
    rfl
  have hexpv : ((NavigationStateStore.init 5 3).recEntry
        ⟨0, "A", .STOP, none, none, none⟩).expires_at
      = 0 + ((NavigationStateStore.init 5 3).ttl : ℚ) := rfl
  have hexp : ¬ ((NavigationStateStore.init 5 3).recEntry
        ⟨0, "A", .STOP, none, none, none⟩).expires_at < (0 : ℚ) := by
    rw [hexpv, httl]
    norm_num
  exact (sequence_monotone_latest 5 3 ([⟨0, "A", .STOP, none, none, none⟩] : List RecOp)
    "A").2.2.2 0 _ hdec hexp
